import Mathlib

/-!
Verification development for the scanpy example notebook
(`Analysis.ipynb`): a single-cell RNA-seq workflow that loads two 10X
matrices, QC-filters, normalizes, clusters, merges and integrates them.

The notebook's state is shallowly embedded: the annotated expression
matrix (`AnnData`) is a list of cell rows (per-cell annotations paired
with an expression row over ℚ) together with a list of per-gene
annotations.  Each scanpy/anndata/pandas operation the notebook calls is
embedded as an executable Lean function over this state, keeping the
library's parameters; the notebook's own functions (`LoadData`,
`BasicFiltering`) are compositions of those at the literal argument
values appearing in the source.
-/

/-! ### Decimal rendering of naturals

`anndata.var_names_make_unique` disambiguates duplicate gene symbols by
appending `-1`, `-2`, … (decimal `str(k)`) and retrying until the
tentative name is unused.  To reason about freshness we need that the
decimal rendering `Nat.repr` is injective; we prove this by exhibiting a
left inverse that re-evaluates the digit string.
-/

/-- Big-endian decimal digit list of a natural number (the digits that
`Nat.repr` produces, without the fuel-threaded accumulator of
`Nat.toDigitsCore`). -/
def decDigits (n : Nat) : List Char :=
  if _h : n < 10 then [Nat.digitChar n]
  else decDigits (n / 10) ++ [Nat.digitChar (n % 10)]
termination_by n
decreasing_by exact Nat.div_lt_self (by omega) (by omega)

/-- With enough fuel, `Nat.toDigitsCore` computes `decDigits` onto the
accumulator. -/
theorem toDigitsCore_eq_decDigits (n : Nat) :
    ∀ (f : Nat) (l : List Char), n < f →
      Nat.toDigitsCore 10 f n l = decDigits n ++ l := by
  induction n using Nat.strong_induction_on with
  | _ n ih =>
    intro f l hf
    match f with
    | 0 => omega
    | f + 1 =>
      by_cases h10 : n < 10
      · have hdiv : n / 10 = 0 := Nat.div_eq_of_lt h10
        have hmod : n % 10 = n := Nat.mod_eq_of_lt h10
        simp [Nat.toDigitsCore, hdiv, hmod, decDigits, h10]
      · have hne : ¬ n / 10 = 0 := by omega
        have hlt : n / 10 < n := Nat.div_lt_self (by omega) (by omega)
        have hltf : n / 10 < f := by omega
        calc Nat.toDigitsCore 10 (f + 1) n l
            = Nat.toDigitsCore 10 f (n / 10) (Nat.digitChar (n % 10) :: l) := by
              simp [Nat.toDigitsCore, hne]
          _ = decDigits (n / 10) ++ (Nat.digitChar (n % 10) :: l) :=
              ih (n / 10) hlt f _ hltf
          _ = decDigits n ++ l := by
              have hD : decDigits n = decDigits (n / 10) ++ [Nat.digitChar (n % 10)] := by
                rw [decDigits]
                simp [h10]
              rw [hD, List.append_assoc]
              rfl

/-- The rendering `Nat.repr` is the string of the big-endian decimal digits. -/
theorem repr_eq_decDigits (n : Nat) : Nat.repr n = (decDigits n).asString := by
  unfold Nat.repr Nat.toDigits
  rw [toDigitsCore_eq_decDigits n (n + 1) [] (Nat.lt_succ_self n)]
  simp

/-- Re-evaluate a decimal digit string. -/
def decVal (l : List Char) : Nat :=
  l.foldl (fun a c => 10 * a + (c.toNat - 48)) 0

theorem digitChar_val (d : Nat) (hd : d < 10) :
    (Nat.digitChar d).toNat - 48 = d := by
  interval_cases d <;> rfl

/-- Evaluating the digits of `n` recovers `n`: `decVal` is a left
inverse of `decDigits`. -/
theorem decVal_decDigits (n : Nat) : decVal (decDigits n) = n := by
  induction n using Nat.strong_induction_on with
  | _ n ih =>
    by_cases h10 : n < 10
    · rw [decDigits]
      simp [h10, decVal, digitChar_val n h10]
    · have hlt : n / 10 < n := Nat.div_lt_self (by omega) (by omega)
      rw [decDigits]
      simp only [h10, dite_false]
      have hmod : n % 10 < 10 := Nat.mod_lt _ (by omega)
      simp [decVal, List.foldl_append] at ih ⊢
      rw [ih (n / 10) hlt, digitChar_val _ hmod]
      omega

/-- The decimal rendering of naturals is injective. -/
theorem nat_repr_injective : Function.Injective Nat.repr := by
  intro m n h
  rw [repr_eq_decDigits, repr_eq_decDigits, List.asString_inj] at h
  have := congrArg decVal h
  rwa [decVal_decDigits, decVal_decDigits] at this

/-! ### `anndata` index deduplication (`var_names_make_unique`)

`AnnData.var_names_make_unique` calls `anndata.utils.make_index_unique`:
it walks the index, and every element that already occurred earlier
(pandas `duplicated(keep="first")`) is renamed to `v + "-" + str(k)`,
where `k` comes from a per-value counter that is incremented until the
tentative name is not in the set of values seen so far (which initially
holds every original value and grows with each assigned name).
-/

/-- Appending a dash and a decimal counter to a fixed base string is
injective in the counter. -/
theorem append_repr_injective (v : String) :
    Function.Injective (fun k : Nat => v ++ "-" ++ Nat.repr k) := by
  intro k1 k2 h
  apply nat_repr_injective
  apply String.ext
  have h1 := congrArg String.data h
  simp only [String.data_append] at h1
  exact List.append_cancel_left h1

/-- There is always a counter value whose tentative name is not among
the used names: the candidate names are pairwise distinct while the used
list is finite. -/
theorem fresh_exists (v : String) (used : List String) (start : Nat) :
    ∃ j : Nat, (v ++ "-" ++ Nat.repr (start + 1 + j)) ∉ used := by
  by_contra hall
  push_neg at hall
  have hinj : Set.InjOn (fun j : Nat => v ++ "-" ++ Nat.repr (start + 1 + j))
      (Finset.range (used.length + 1)) := by
    intro a _ b _ hab
    have := append_repr_injective v hab
    omega
  have hsub : Finset.image (fun j : Nat => v ++ "-" ++ Nat.repr (start + 1 + j))
      (Finset.range (used.length + 1)) ⊆ used.toFinset := by
    intro x hx
    simp only [Finset.mem_image] at hx
    obtain ⟨j, _, rfl⟩ := hx
    exact List.mem_toFinset.mpr (hall j)
  have hcard := Finset.card_le_card hsub
  rw [Finset.card_image_of_injOn hinj, Finset.card_range] at hcard
  have := List.toFinset_card_le used
  omega

/-- The value the per-value counter reaches for this duplicate: the
least `k` above the counter's previous value whose tentative name
`v-k` is unused (the `while True` loop of `make_index_unique`). -/
def freshCounter (v : String) (used : List String) (start : Nat) : Nat :=
  start + 1 + Nat.find (fresh_exists v used start)

theorem freshCounter_not_mem (v : String) (used : List String) (start : Nat) :
    (v ++ "-" ++ Nat.repr (freshCounter v used start)) ∉ used :=
  Nat.find_spec (fresh_exists v used start)

/-- Current value of the per-value duplicate counter (`Counter()` in the
source, an absent key counting as `0`). -/
def lookupCounter (ctr : List (String × Nat)) (v : String) : Nat :=
  ((ctr.find? (fun p => p.1 == v)).map (fun p => p.2)).getD 0

/-- One pass of `make_index_unique`: `seen` holds the values of already
processed positions (so membership in it is exactly pandas
`duplicated(keep="first")`), `ctr` the per-value counters, and `used`
the set of taken names (all original values plus every assigned name). -/
def makeUniqueAux : List String → List String → List (String × Nat) → List String → List String
  | [], _, _, _ => []
  | v :: rest, seen, ctr, used =>
    if v ∈ seen then
      let k := freshCounter v used (lookupCounter ctr v)
      (v ++ "-" ++ Nat.repr k) ::
        makeUniqueAux rest (v :: seen) ((v, k) :: ctr) ((v ++ "-" ++ Nat.repr k) :: used)
    else
      v :: makeUniqueAux rest (v :: seen) ctr used

/-- Model of `anndata.utils.make_index_unique` (the index is returned unchanged
when it is already unique). -/
def make_index_unique (l : List String) : List String :=
  if l.Nodup then l else makeUniqueAux l [] [] l

/-- A name that is already taken and that can only reappear in the
remaining input as a duplicate is never emitted again. -/
theorem makeUniqueAux_not_mem (l : List String) :
    ∀ (seen : List String) (ctr : List (String × Nat)) (used : List String) (x : String),
      x ∈ used → (x ∈ l → x ∈ seen) → x ∉ makeUniqueAux l seen ctr used := by
  induction l with
  | nil =>
    intro seen ctr used x _ _
    simp [makeUniqueAux]
  | cons v rest ih =>
    intro seen ctr used x hxu hximp
    by_cases hv : v ∈ seen
    · simp only [makeUniqueAux, if_pos hv]
      intro hmem
      rcases List.mem_cons.mp hmem with heq | hmem2
      · exact freshCounter_not_mem v used (lookupCounter ctr v) (heq ▸ hxu)
      · exact ih (v :: seen) ((v, lookupCounter ctr v + 1 + _) :: ctr) _ x
          (List.mem_cons_of_mem _ hxu)
          (fun hr => List.mem_cons_of_mem _ (hximp (List.mem_cons_of_mem _ hr))) hmem2
    · simp only [makeUniqueAux, if_neg hv]
      intro hmem
      rcases List.mem_cons.mp hmem with heq | hmem2
      · exact hv (heq ▸ hximp (heq ▸ List.mem_cons_self v rest))
      · exact ih (v :: seen) ctr used x hxu
          (fun hr => List.mem_cons_of_mem _ (hximp (List.mem_cons_of_mem _ hr))) hmem2

/-- When every remaining input value is among the used names, the pass
emits pairwise-distinct names. -/
theorem makeUniqueAux_nodup (l : List String) :
    ∀ (seen : List String) (ctr : List (String × Nat)) (used : List String),
      (∀ v ∈ l, v ∈ used) → (makeUniqueAux l seen ctr used).Nodup := by
  induction l with
  | nil =>
    intro seen ctr used _
    simp [makeUniqueAux]
  | cons v rest ih =>
    intro seen ctr used hsub
    by_cases hv : v ∈ seen
    · simp only [makeUniqueAux, if_pos hv]
      refine List.nodup_cons.mpr ⟨?_, ?_⟩
      · refine makeUniqueAux_not_mem rest (v :: seen) _ _ _ (List.mem_cons_self _ _) ?_
        intro hr
        exact absurd (hsub _ (List.mem_cons_of_mem _ hr))
          (freshCounter_not_mem v used (lookupCounter ctr v))
      · exact ih (v :: seen) _ _
          (fun w hw => List.mem_cons_of_mem _ (hsub w (List.mem_cons_of_mem _ hw)))
    · simp only [makeUniqueAux, if_neg hv]
      refine List.nodup_cons.mpr ⟨?_, ?_⟩
      · exact makeUniqueAux_not_mem rest (v :: seen) ctr used v
          (hsub v (List.mem_cons_self _ _)) (fun _ => List.mem_cons_self _ _)
      · exact ih (v :: seen) ctr used (fun w hw => hsub w (List.mem_cons_of_mem _ hw))

/-- After `make_index_unique` no two index entries coincide. -/
theorem make_index_unique_nodup (l : List String) : (make_index_unique l).Nodup := by
  unfold make_index_unique
  by_cases h : l.Nodup
  · simp [h]
  · simpa [h] using makeUniqueAux_nodup l [] [] l (fun _ hv => hv)

/-! ### Data model: the annotated expression matrix

Per-cell (`obs`) and per-gene (`var`) annotation columns are optional
fields, absent until the pipeline stage that writes them runs. -/

structure Obs where
  name : String
  sample : Option String
  n_genes : Option Nat
  n_genes_by_counts : Option Nat
  total_counts : Option ℚ
  pct_counts_mt : Option ℚ
  pct_counts_ribo : Option ℚ
  n_counts : Option ℚ
  batch : Option String
  deriving DecidableEq

structure Var where
  name : String
  mt : Option Bool
  ribo : Option Bool
  n_cells : Option Nat
  deriving DecidableEq

/-- The annotated matrix: one entry per cell pairing its annotations
with its expression row (cells × genes), plus the per-gene
annotations. -/
structure AnnData where
  rows : List (Obs × List ℚ)
  var : List Var
  deriving DecidableEq

def AnnData.n_obs (A : AnnData) : Nat := A.rows.length

def AnnData.n_vars (A : AnnData) : Nat := A.var.length

def AnnData.var_names (A : AnnData) : List String := A.var.map (fun v => v.name)

/-! ### Data Loader -/

/-- A 10X-format directory: barcode list, feature list
(`gene_id`, `gene_symbol` columns) and the count matrix. -/
structure TenXDir where
  barcodes : List String
  genes : List (String × String)
  mtx : List (List ℚ)
  deriving DecidableEq

/-- Model of `sc.read_10x_mtx(gex_path, cache_compression=None, var_names="gene_symbols")`:
cells indexed by barcode, genes indexed by the symbol column. -/
def sc_read_10x_mtx (g : TenXDir) : AnnData :=
  { rows := (g.barcodes.zip g.mtx).map
      (fun p => (⟨p.1, none, none, none, none, none, none, none, none⟩, p.2)),
    var := g.genes.map (fun p => ⟨p.2, none, none, none⟩) }

/-- Model of `adata.var_names_make_unique()`: renames the var index by
`make_index_unique`, leaving everything else in place. -/
def var_names_make_unique (A : AnnData) : AnnData :=
  { rows := A.rows,
    var := (A.var.zip (make_index_unique A.var_names)).map
      (fun p => { p.1 with name := p.2 }) }

/-- The notebook's `LoadData`: read the 10X directory and deduplicate
the gene names. -/
def LoadData (gex_path : TenXDir) : AnnData :=
  var_names_make_unique (sc_read_10x_mtx gex_path)

/-- Model of `adata.obs["sample"] = s` (the metadata tag added right after
loading). -/
def setSample (s : String) (A : AnnData) : AnnData :=
  { rows := A.rows.map (fun r => ({ r.1 with sample := some s }, r.2)),
    var := A.var }

/-! ### Quality-control filtering steps -/

/-- Number of strictly positive entries of an expression row: scanpy's
`X > 0` count, used both by `filter_cells` and for
`n_genes_by_counts`. -/
def nnz (x : List ℚ) : Nat := x.countP (fun v => decide (0 < v))

/-- Model of `sc.pp.filter_genes(adata, min_cells=…)`: keep the genes expressed
in at least `min_cells` cells and record `n_cells` for the kept
genes. -/
def sc_pp_filter_genes (min_cells : Nat) (A : AnnData) : AnnData :=
  let counts : List Nat := A.rows.foldl
    (fun acc r => List.zipWith (fun a v => if 0 < v then a + 1 else a) acc r.2)
    (List.replicate A.var.length 0)
  { rows := A.rows.map (fun r =>
      (r.1, (r.2.zip counts).filterMap
        (fun p => if min_cells ≤ p.2 then some p.1 else none))),
    var := (A.var.zip counts).filterMap
      (fun p => if min_cells ≤ p.2 then some { p.1 with n_cells := some p.2 } else none) }

/-- Model of `sc.pp.filter_cells(adata, min_genes=…)`: keep the cells expressing
at least `min_genes` genes and record `n_genes` for the kept cells. -/
def sc_pp_filter_cells (min_genes : Nat) (A : AnnData) : AnnData :=
  { rows := A.rows.filterMap (fun r =>
      if min_genes ≤ nnz r.2 then
        some ({ r.1 with n_genes := some (nnz r.2) }, r.2)
      else none),
    var := A.var }

/-- Python `s.startswith(p)`: the characters of `p` are an initial
segment of the characters of `s`. -/
def strStartsWith (s p : String) : Bool :=
  List.isPrefixOf p.data s.data

/-- The notebook lines tagging mitochondrial and ribosomal genes by
symbol pattern (mouse; the source comments that the patterns must change
per species):
`adata.var["mt"] = adata.var_names.str.startswith("mt-")` and
`adata.var["ribo"] = adata.var_names.str.startswith(("Rps","Rpl"))`. -/
def annotateMtRibo (A : AnnData) : AnnData :=
  { rows := A.rows,
    var := A.var.map (fun v =>
      { v with
          mt := some (strStartsWith v.name "mt-"),
          ribo := some (strStartsWith v.name "Rps" || strStartsWith v.name "Rpl") }) }

/-- Sum of the entries sitting at flagged gene positions. -/
def flaggedSum (flags : List Bool) (x : List ℚ) : ℚ :=
  (List.zipWith (fun b v => if b then v else 0) flags x).sum

/-- Model of `sc.pp.calculate_qc_metrics(adata, qc_vars=["mt","ribo"], percent_top=None, inplace=True, log1p=False)`:
writes the per-cell columns `n_genes_by_counts`, `total_counts`,
`pct_counts_mt` and `pct_counts_ribo` (the per-gene statistics it also
produces are never read by the notebook and are not modelled). -/
def sc_pp_calculate_qc_metrics (A : AnnData) : AnnData :=
  let mtf := A.var.map (fun v => v.mt.getD false)
  let ribof := A.var.map (fun v => v.ribo.getD false)
  { rows := A.rows.map (fun r =>
      ({ r.1 with
          n_genes_by_counts := some (nnz r.2),
          total_counts := some r.2.sum,
          pct_counts_mt := some (100 * flaggedSum mtf r.2 / r.2.sum),
          pct_counts_ribo := some (100 * flaggedSum ribof r.2 / r.2.sum) }, r.2)),
    var := A.var }

/-- Model of `adata = adata[adata.obs.n_genes_by_counts < ub, :]` (the doublet
filter, `ub = 5000` in the source). -/
def subsetObsLt (ub : Nat) (A : AnnData) : AnnData :=
  { rows := A.rows.filter (fun r => decide (r.1.n_genes_by_counts.getD 0 < ub)),
    var := A.var }

/-- Model of `adata = adata[adata.obs.n_genes_by_counts > lb, :]` (the low-count
filter, `lb = 200` in the source). -/
def subsetObsGt (lb : Nat) (A : AnnData) : AnnData :=
  { rows := A.rows.filter (fun r => decide (lb < r.1.n_genes_by_counts.getD 0)),
    var := A.var }

/-- Model of `adata = adata[adata.obs.pct_counts_mt < c, :]` (the mitochondrial
filter, `c = 10` in the source). -/
def subsetPctMtLt (c : ℚ) (A : AnnData) : AnnData :=
  { rows := A.rows.filter (fun r => decide (r.1.pct_counts_mt.getD 0 < c)),
    var := A.var }

/-- Model of `sc.pp.normalize_per_cell(adata, counts_per_cell_after=…)`: with the
library default `min_counts=1`, cells whose total is below `1` are
filtered out, the original totals are stored in `obs["n_counts"]`, and
each remaining row is divided by its total over the target. -/
def sc_pp_normalize_per_cell (counts_per_cell_after : ℚ) (A : AnnData) : AnnData :=
  { rows := (A.rows.filter (fun r => decide ((1 : ℚ) ≤ r.2.sum))).map (fun r =>
      ({ r.1 with n_counts := some r.2.sum },
        r.2.map (fun v => v / (r.2.sum / counts_per_cell_after)))),
    var := A.var }

/-- The state-changing prefix of the notebook's `BasicFiltering`
through count normalization, at the literal thresholds of the source
(the plotting and printing calls do not modify the matrix; the
real-valued tail `log1p` / `highly_variable_genes` / `regress_out` /
`scale` follows these steps and is outside the claims checked here). -/
def BasicFilteringCounts (adata : AnnData) : AnnData :=
  sc_pp_normalize_per_cell 1000
    (subsetPctMtLt 10
      (subsetObsGt 200
        (subsetObsLt 5000
          (sc_pp_calculate_qc_metrics
            (annotateMtRibo
              (sc_pp_filter_cells 200
                (sc_pp_filter_genes 3 adata)))))))

/-! ### Spec-side configurable pipeline (for the refinement claim C5)

Modelled from the spec: the spec describes every QC threshold and the
species-specific name-matching patterns as caller-supplied tunable
parameters of the pipeline; `QCPipelineCfg` renders that description so
it can be compared with the source's `BasicFiltering`, whose thresholds
and patterns are literals in the function body. -/

structure QCConfig where
  min_cells : Nat
  min_genes : Nat
  max_genes_by_counts : Nat
  min_genes_by_counts : Nat
  pct_mt_cutoff : ℚ
  counts_per_cell_after : ℚ
  mt_pat : String
  ribo_pats : List String
  deriving DecidableEq

/-- Pattern tagging with caller-supplied patterns (spec wording). -/
def annotateMtRiboCfg (cfg : QCConfig) (A : AnnData) : AnnData :=
  { rows := A.rows,
    var := A.var.map (fun v =>
      { v with
          mt := some (strStartsWith v.name cfg.mt_pat),
          ribo := some (cfg.ribo_pats.any (fun p => strStartsWith v.name p)) }) }

/-- The QC/normalization pipeline with every threshold taken from the
caller-supplied configuration (spec wording). -/
def QCPipelineCfg (cfg : QCConfig) (adata : AnnData) : AnnData :=
  sc_pp_normalize_per_cell cfg.counts_per_cell_after
    (subsetPctMtLt cfg.pct_mt_cutoff
      (subsetObsGt cfg.min_genes_by_counts
        (subsetObsLt cfg.max_genes_by_counts
          (sc_pp_calculate_qc_metrics
            (annotateMtRiboCfg cfg
              (sc_pp_filter_cells cfg.min_genes
                (sc_pp_filter_genes cfg.min_cells adata)))))))

/-- The configuration whose values are the literals of the source. -/
def sourceQCConfig : QCConfig :=
  ⟨3, 200, 5000, 200, 10, 1000, "mt-", ["Rps", "Rpl"]⟩

/-! ### Merge stage -/

/-- Model of `pandas.Index.intersection` as called on the two gene indexes: the
elements of `self` that occur in `other`, kept in `self` order (the
method's default is `sort=False`; both indexes are already
deduplicated by the loader). -/
def indexIntersection (a b : List String) : List String :=
  a.filter (fun x => decide (x ∈ b))

/-- One expression row of `adata[:, names]`: the entries picked at the
positions the requested names occupy in the var index (requested names
are present when the call subsets to an intersection). -/
def subsetVarsRow (varNames : List String) (names : List String) (x : List ℚ) : List ℚ :=
  names.map (fun n =>
    match List.indexOf? n varNames with
    | some i => x.getD i 0
    | none => 0)

/-- Model of `adata[:, names]`: restrict the matrix to the named genes, in the
order of `names`. -/
def subsetVars (A : AnnData) (names : List String) : AnnData :=
  { rows := A.rows.map (fun r => (r.1, subsetVarsRow A.var_names names r.2)),
    var := names.map (fun n =>
      (A.var.find? (fun v => v.name == n)).getD ⟨n, none, none, none⟩) }

/-- Model of the `anndata` 0.x call `a.concatenate(b)` with its defaults (`join="inner"`,
`batch_key="batch"`, `batch_categories` `"0"`/`"1"`,
`index_unique="-"`): restrict both operands to the shared genes, stack
the cell rows, suffix each barcode with its batch index and record the
batch category in `obs`. -/
def concatenate (a b : AnnData) : AnnData :=
  let shared := indexIntersection a.var_names b.var_names
  let a2 := subsetVars a shared
  let b2 := subsetVars b shared
  { rows :=
      (a2.rows.map (fun r => ({ r.1 with name := r.1.name ++ "-0", batch := some "0" }, r.2)))
        ++ (b2.rows.map (fun r => ({ r.1 with name := r.1.name ++ "-1", batch := some "1" }, r.2))),
    var := a2.var }

/-- Name lookup in the notebook's global namespace; `none` is a Python
`NameError`. -/
def lookupName (env : List (String × AnnData)) (x : String) : Option AnnData :=
  (env.find? (fun p => p.1 == x)).map (fun p => p.2)

/-- The merge cell of the notebook, evaluating names in source order:
`var_names = naive.var_names.intersection(car1.var_names)`;
`naive = naive_treated[:, var_names]`; `car1 = car1[:, var_names]`;
`adata = naive.concatenate(car1)`.  The subsequent `Clustering(adata)`
call does not change which inputs the merged matrix is built from and
its numerics are not modelled; the result here is the concatenated
matrix handed to it, or `none` where Python raises `NameError`. -/
def mergeCell (env : List (String × AnnData)) : Option AnnData := do
  let naive ← lookupName env "naive"
  let car1 ← lookupName env "car1"
  let vn := indexIntersection naive.var_names car1.var_names
  let nt ← lookupName env "naive_treated"
  let naive2 := subsetVars nt vn
  let car2 := subsetVars car1 vn
  some (concatenate naive2 car2)

/-! ### Claims -/

/-- C1: for every input annotated matrix and every QC filtering
configuration, each filtering step of the Quality-Control Filter
(`BasicFiltering`) produces a matrix whose cell count and gene count are
less than or equal to those of its input; no filtering step ever adds
cells or genes. -/
theorem qc_steps_monotone (min_cells min_genes ub lb : Nat) (c : ℚ) (A : AnnData) :
    ((sc_pp_filter_genes min_cells A).n_obs ≤ A.n_obs ∧
      (sc_pp_filter_genes min_cells A).n_vars ≤ A.n_vars) ∧
    ((sc_pp_filter_cells min_genes A).n_obs ≤ A.n_obs ∧
      (sc_pp_filter_cells min_genes A).n_vars ≤ A.n_vars) ∧
    ((subsetObsLt ub A).n_obs ≤ A.n_obs ∧ (subsetObsLt ub A).n_vars ≤ A.n_vars) ∧
    ((subsetObsGt lb A).n_obs ≤ A.n_obs ∧ (subsetObsGt lb A).n_vars ≤ A.n_vars) ∧
    ((subsetPctMtLt c A).n_obs ≤ A.n_obs ∧ (subsetPctMtLt c A).n_vars ≤ A.n_vars) := by
  refine ⟨⟨?_, ?_⟩, ⟨?_, ?_⟩, ⟨?_, ?_⟩, ⟨?_, ?_⟩, ⟨?_, ?_⟩⟩
  · simp [sc_pp_filter_genes, AnnData.n_obs]
  · simp only [sc_pp_filter_genes, AnnData.n_vars]
    exact le_trans (List.length_filterMap_le _ _)
      (by rw [List.length_zip]; exact min_le_left _ _)
  · simp only [sc_pp_filter_cells, AnnData.n_obs]
    exact List.length_filterMap_le _ _
  · exact le_rfl
  · simp only [subsetObsLt, AnnData.n_obs]
    exact List.length_filter_le _ _
  · exact le_rfl
  · simp only [subsetObsGt, AnnData.n_obs]
    exact List.length_filter_le _ _
  · exact le_rfl
  · simp only [subsetPctMtLt, AnnData.n_obs]
    exact List.length_filter_le _ _
  · exact le_rfl

/-- C10: each boolean-mask cell-subsetting step of `BasicFiltering`
only deletes rows: the surviving cells keep their barcode, their
per-cell annotation values (the `sample` label included) and their
expression rows in their relative order (the surviving row list is a
sublist of the input row list), and the per-gene annotations are left
unchanged. -/
theorem subset_steps_frame (ub lb : Nat) (c : ℚ) (A : AnnData) :
    ((subsetObsLt ub A).var = A.var ∧ (subsetObsLt ub A).rows.Sublist A.rows) ∧
    ((subsetObsGt lb A).var = A.var ∧ (subsetObsGt lb A).rows.Sublist A.rows) ∧
    ((subsetPctMtLt c A).var = A.var ∧ (subsetPctMtLt c A).rows.Sublist A.rows) :=
  ⟨⟨rfl, List.filter_sublist _⟩, ⟨rfl, List.filter_sublist _⟩, ⟨rfl, List.filter_sublist _⟩⟩

/-- A map whose function is pointwise constant is a replicate (used for
the batch labels of `concatenate`). -/
theorem map_eq_replicate_of_const {α β : Type} (l : List α) (f : α → β) (b : β)
    (h : ∀ a, f a = b) : l.map f = List.replicate l.length b := by
  induction l with
  | nil => rfl
  | cons x xs ih => simp [h, ih, List.replicate]

/-- C6: per-cell count normalization is idempotent up to its fixed
target total: when every row sum already equals the target 1000,
re-applying `sc.pp.normalize_per_cell` with the same target leaves
every row sum unchanged. -/
theorem normalize_idempotent_on_target (A : AnnData)
    (h : ∀ r ∈ A.rows, r.2.sum = 1000) :
    (sc_pp_normalize_per_cell 1000 A).rows.map (fun r => r.2.sum)
      = A.rows.map (fun r => r.2.sum) := by
  unfold sc_pp_normalize_per_cell
  have hf : A.rows.filter (fun r => decide ((1 : ℚ) ≤ r.2.sum)) = A.rows := by
    apply List.filter_eq_self.mpr
    intro r hr
    rw [h r hr]
    norm_num
  simp only [hf, List.map_map]
  apply List.map_congr_left
  intro r hr
  simp only [Function.comp]
  have hdiv : r.2.sum / 1000 = 1 := by rw [h r hr]; norm_num
  rw [hdiv]
  simp

/-- One already-normalized cell: a single barcode whose counts sum to
the target 1000. -/
def normTestMatrix : AnnData :=
  ⟨[(⟨"AAACATACAACCAC", none, none, none, none, none, none, none, none⟩, [400, 600])],
    [⟨"Gzma", none, none, none⟩, ⟨"Cd8a", none, none, none⟩]⟩

unseal Rat.add Rat.mul Rat.inv in
theorem normalize_idempotent_witness :
    (∀ r ∈ normTestMatrix.rows, r.2.sum = 1000) ∧
    (sc_pp_normalize_per_cell 1000 normTestMatrix).rows.map (fun r => r.2.sum)
      = normTestMatrix.rows.map (fun r => r.2.sum) :=
  ⟨by decide, normalize_idempotent_on_target normTestMatrix (by decide)⟩

/-- C7: the gene-set intersection performed before merging is
commutative as a set operation, its column ordering is a deterministic
function of the operands (the order of appearance in the left one), and
the gene sets `{A,B,C}` and `{B,C,D}` intersect to exactly `{B,C}` in
either orientation. -/
theorem index_intersection_props :
    (∀ (a b : List String) (x : String),
        x ∈ indexIntersection a b ↔ x ∈ indexIntersection b a) ∧
    (∀ a b : List String, (indexIntersection a b).Sublist a) ∧
    indexIntersection ["A", "B", "C"] ["B", "C", "D"] = ["B", "C"] ∧
    indexIntersection ["B", "C", "D"] ["A", "B", "C"] = ["B", "C"] := by
  refine ⟨?_, ?_, by decide, by decide⟩
  · intro a b x
    simp only [indexIntersection, List.mem_filter, decide_eq_true_eq]
    exact and_comm
  · intro a b
    exact List.filter_sublist _

/-- C8: concatenation along the cell axis preserves total cell count —
for matrices with the same gene columns the merged matrix has exactly
`rows(A) + rows(B)` cells — and every cell of the result keeps its
originating `sample` label and carries its originating batch tag. -/
theorem concatenate_cell_counts (a b : AnnData) (_h : a.var_names = b.var_names) :
    (concatenate a b).n_obs = a.n_obs + b.n_obs ∧
    (concatenate a b).rows.map (fun r => r.1.sample)
      = a.rows.map (fun r => r.1.sample) ++ b.rows.map (fun r => r.1.sample) ∧
    (concatenate a b).rows.map (fun r => r.1.batch)
      = List.replicate a.n_obs (some "0") ++ List.replicate b.n_obs (some "1") := by
  refine ⟨?_, ?_, ?_⟩
  · simp [concatenate, subsetVars, AnnData.n_obs]
  · simp only [concatenate, subsetVars, List.map_append, List.map_map]
    rfl
  · simp only [concatenate, subsetVars, List.map_append, List.map_map]
    exact congrArg₂ (· ++ ·)
      (map_eq_replicate_of_const a.rows _ (some "0") (fun r => rfl))
      (map_eq_replicate_of_const b.rows _ (some "1") (fun r => rfl))

/-- The naive sample of the merge-stage example: two cells over genes
`{A,B,C}`. -/
def mergeNaive : AnnData :=
  ⟨[(⟨"AAAC", some "Naive", none, none, none, none, none, none, none⟩, [1, 2, 3]),
    (⟨"AAAG", some "Naive", none, none, none, none, none, none, none⟩, [4, 5, 6])],
    [⟨"A", none, none, none⟩, ⟨"B", none, none, none⟩, ⟨"C", none, none, none⟩]⟩

/-- The car1 sample of the merge-stage example: one cell over the same
genes. -/
def mergeCar1 : AnnData :=
  ⟨[(⟨"CCAC", some "Car1", none, none, none, none, none, none, none⟩, [7, 8, 9])],
    [⟨"A", none, none, none⟩, ⟨"B", none, none, none⟩, ⟨"C", none, none, none⟩]⟩

theorem concatenate_cell_counts_witness :
    mergeNaive.var_names = mergeCar1.var_names ∧
    ((concatenate mergeNaive mergeCar1).n_obs = mergeNaive.n_obs + mergeCar1.n_obs ∧
      (concatenate mergeNaive mergeCar1).rows.map (fun r => r.1.sample)
        = mergeNaive.rows.map (fun r => r.1.sample)
            ++ mergeCar1.rows.map (fun r => r.1.sample) ∧
      (concatenate mergeNaive mergeCar1).rows.map (fun r => r.1.batch)
        = List.replicate mergeNaive.n_obs (some "0")
            ++ List.replicate mergeCar1.n_obs (some "1")) :=
  ⟨by decide, concatenate_cell_counts mergeNaive mergeCar1 (by decide)⟩

/-- C2 (violated by the code): the merge cell is meant to restrict the
two per-sample pipeline outputs to their shared genes and concatenate
them, but its second statement reads the never-defined name
`naive_treated`; in every notebook namespace that binds only the names
the notebook defines (`naive` and `car1`), the cell aborts with a
`NameError` instead of building the merged matrix from those two
outputs. -/
theorem mergeCell_name_error (naive car1 : AnnData) :
    mergeCell [("naive", naive), ("car1", car1)] = none := rfl

/-- The mitochondrial gene flags of a raw matrix, as the notebook sets
them before `calculate_qc_metrics`. -/
def mtFlags (A : AnnData) : List Bool :=
  A.var.map (fun v => strStartsWith v.name "mt-")

/-- C3 (amended): under the default configuration the mitochondrial QC
step keeps a cell if and only if its mitochondrial share is strictly
below the 10% cutoff — equivalently it drops a cell if and only if the
mitochondrial fraction is at least 10%, so a cell at exactly 10% is
removed, not retained. -/
theorem mito_filter_keep_iff (A : AnnData) (h : ∀ r ∈ A.rows, 0 < r.2.sum) :
    (subsetPctMtLt 10 (sc_pp_calculate_qc_metrics (annotateMtRibo A))).rows
      = (sc_pp_calculate_qc_metrics (annotateMtRibo A)).rows.filter
          (fun r => decide (10 * flaggedSum (mtFlags A) r.2 < r.2.sum)) := by
  simp only [subsetPctMtLt, sc_pp_calculate_qc_metrics, annotateMtRibo, List.map_map,
    List.filter_map]
  congr 1
  apply List.filter_congr
  intro r hr
  simp only [Function.comp, Option.getD_some, decide_eq_decide]
  have ht : (0 : ℚ) < r.2.sum := h r hr
  have hflags : A.var.map
      ((fun v => v.mt.getD false) ∘ fun v =>
        ({ name := v.name, mt := some (strStartsWith v.name "mt-"),
           ribo := some (strStartsWith v.name "Rps" || strStartsWith v.name "Rpl"),
           n_cells := v.n_cells } : Var)) = mtFlags A := by
    simp [mtFlags, Function.comp]
  rw [hflags]
  rw [div_lt_iff₀ ht]
  constructor <;> intro h1 <;> nlinarith

/-- Two cells over a mitochondrial and a somatic gene: the first has
mitochondrial fraction exactly 10% (1 of 10 counts), the second 15%
(3 of 20 counts). -/
def mitoBoundaryMatrix : AnnData :=
  ⟨[(⟨"AAACATACAACCAC", none, none, none, none, none, none, none, none⟩, [1, 9]),
    (⟨"AAACATTGAGCTAC", none, none, none, none, none, none, none, none⟩, [3, 17])],
    [⟨"mt-Nd1", none, none, none⟩, ⟨"Gzma", none, none, none⟩]⟩

unseal Rat.add Rat.mul Rat.inv in
/-- C3 (counterexample): under the default cutoff the mitochondrial
step removes the 15%-cell, but it also removes the cell whose fraction
is exactly 10% — which the claim says is retained, its fraction not
being above the threshold: the mask is `pct_counts_mt < 10`, so the
boundary cell fails it. -/
theorem mito_boundary_cell_dropped :
    (sc_pp_calculate_qc_metrics (annotateMtRibo mitoBoundaryMatrix)).rows.map
        (fun r => r.1.pct_counts_mt) = [some 10, some 15] ∧
    (subsetPctMtLt 10 (sc_pp_calculate_qc_metrics (annotateMtRibo mitoBoundaryMatrix))).rows
      = [] := by
  decide

unseal Rat.add Rat.mul Rat.inv in
theorem mito_filter_keep_iff_witness :
    (∀ r ∈ mitoBoundaryMatrix.rows, 0 < r.2.sum) ∧
    (subsetPctMtLt 10 (sc_pp_calculate_qc_metrics (annotateMtRibo mitoBoundaryMatrix))).rows
      = (sc_pp_calculate_qc_metrics (annotateMtRibo mitoBoundaryMatrix)).rows.filter
          (fun r => decide (10 * flaggedSum (mtFlags mitoBoundaryMatrix) r.2 < r.2.sum)) :=
  ⟨by decide, mito_filter_keep_iff mitoBoundaryMatrix (by decide)⟩

/-- One cell expressing exactly 200 genes (every count 1), over 200
distinct genes: it passes QC step 2 (`min_genes = 200` keeps cells with
at least 200 genes) but fails QC step 5 (`n_genes_by_counts > 200`). -/
def gene200Matrix : AnnData :=
  ⟨[(⟨"AAACATACAACCAC", none, none, none, none, none, none, none, none⟩,
      List.replicate 200 1)],
    (List.range 200).map (fun i => ⟨Nat.repr i, none, none, none⟩)⟩

set_option maxRecDepth 40000 in
/-- C4 (counterexample): a matrix that has already passed step 2 (its
only cell expresses exactly 200 genes, and `filter_cells` keeps cells
with `n_genes ≥ 200`) on which step 5 removes that cell — the strict
`> 200` mask is not a no-op on step-2 output. -/
theorem low_gene_filter_drops_boundary_cell :
    (∀ r ∈ gene200Matrix.rows, 200 ≤ nnz r.2) ∧
    (sc_pp_calculate_qc_metrics (annotateMtRibo gene200Matrix)).n_obs = 1 ∧
    (subsetObsGt 200 (sc_pp_calculate_qc_metrics (annotateMtRibo gene200Matrix))).n_obs
      = 0 := by
  decide

/-- C4 (amended): on a matrix that passed step 2 (every cell expresses
at least 200 genes), QC step 5 is not redundant: it removes exactly the
cells expressing exactly 200 genes, keeping those with strictly
more. -/
theorem low_gene_filter_on_step2_output (A : AnnData)
    (h : ∀ r ∈ A.rows, 200 ≤ nnz r.2) :
    (subsetObsGt 200 (sc_pp_calculate_qc_metrics (annotateMtRibo A))).rows
      = (sc_pp_calculate_qc_metrics (annotateMtRibo A)).rows.filter
          (fun r => decide (nnz r.2 ≠ 200)) := by
  simp only [subsetObsGt, sc_pp_calculate_qc_metrics, annotateMtRibo, List.filter_map]
  congr 1
  apply List.filter_congr
  intro r hr
  simp only [Function.comp, Option.getD_some, decide_eq_decide]
  have := h r hr
  omega

set_option maxRecDepth 40000 in
theorem low_gene_filter_on_step2_output_witness :
    (∀ r ∈ gene200Matrix.rows, 200 ≤ nnz r.2) ∧
    (subsetObsGt 200 (sc_pp_calculate_qc_metrics (annotateMtRibo gene200Matrix))).rows
      = (sc_pp_calculate_qc_metrics (annotateMtRibo gene200Matrix)).rows.filter
          (fun r => decide (nnz r.2 ≠ 200)) :=
  ⟨by decide, low_gene_filter_on_step2_output gene200Matrix (by decide)⟩

/-- A configuration a caller could wish to supply: thresholds loose
enough to keep small cells (`min_genes = 1`, lower bound `0`). -/
def permissiveConfig : QCConfig :=
  ⟨3, 1, 5000, 0, 10, 1000, "mt-", ["Rps", "Rpl"]⟩

/-- Three identical cells over three somatic genes, one count each. -/
def tinyMatrix : AnnData :=
  ⟨[(⟨"AAACATACAACCAC", none, none, none, none, none, none, none, none⟩, [1, 1, 1]),
    (⟨"AAACATTGAGCTAC", none, none, none, none, none, none, none, none⟩, [1, 1, 1]),
    (⟨"AAACATTGATCAGC", none, none, none, none, none, none, none, none⟩, [1, 1, 1])],
    [⟨"Gzma", none, none, none⟩, ⟨"Cd8a", none, none, none⟩, ⟨"Actb", none, none, none⟩]⟩

unseal Rat.add Rat.mul Rat.inv in
/-- C5 (counterexample): the QC thresholds are not caller-supplied
parameters of the notebook's pipeline — `BasicFiltering` takes only the
matrix, so no supplied configuration can reach it: the pipeline run by
the code does not coincide with the configured pipeline at every
caller-supplied configuration (here `min_genes = 1` keeps all three
cells of a small matrix while the code's literal `min_genes = 200`
drops them all). -/
theorem qc_thresholds_not_caller_supplied :
    ¬ (∀ (cfg : QCConfig) (A : AnnData), QCPipelineCfg cfg A = BasicFilteringCounts A) := by
  intro hall
  have h := congrArg AnnData.n_obs (hall permissiveConfig tinyMatrix)
  revert h
  decide

/-- C5 (amended): every QC threshold and the species-specific
name-matching patterns are fixed literals inside `BasicFiltering`
(`min_cells = 3`, `min_genes = 200`, bounds `5000`/`200`, cutoff `10`,
target `1000`, patterns `mt-`/`Rps`/`Rpl`); the caller supplies only
the matrix, and the code's pipeline equals the configured pipeline
exactly at that one source configuration. -/
theorem basic_filtering_at_source_config (A : AnnData) :
    BasicFilteringCounts A = QCPipelineCfg sourceQCConfig A := by
  simp only [BasicFilteringCounts, QCPipelineCfg, sourceQCConfig, annotateMtRibo,
    annotateMtRiboCfg, List.any_cons, List.any_nil, Bool.or_false]

/-- The pass `make_index_unique` renames positions without adding or removing
any. -/
theorem makeUniqueAux_length (l : List String) :
    ∀ (seen : List String) (ctr : List (String × Nat)) (used : List String),
      (makeUniqueAux l seen ctr used).length = l.length := by
  induction l with
  | nil => intro seen ctr used; rfl
  | cons v rest ih =>
    intro seen ctr used
    by_cases hv : v ∈ seen
    · simp only [makeUniqueAux, if_pos hv, List.length_cons, ih]
    · simp only [makeUniqueAux, if_neg hv, List.length_cons, ih]

theorem make_index_unique_length (l : List String) :
    (make_index_unique l).length = l.length := by
  unfold make_index_unique
  by_cases h : l.Nodup
  · simp [h]
  · simp [h, makeUniqueAux_length]

/-- The loader step `var_names_make_unique` installs exactly the deduplicated index as
the gene-name index. -/
theorem var_names_make_unique_var_names (A : AnnData) :
    (var_names_make_unique A).var_names = make_index_unique A.var_names := by
  have hlen : (make_index_unique A.var_names).length ≤ A.var.length := by
    rw [make_index_unique_length]
    simp [AnnData.var_names]
  calc (var_names_make_unique A).var_names
      = List.map Prod.snd (A.var.zip (make_index_unique A.var_names)) := by
        simp only [var_names_make_unique, AnnData.var_names, List.map_map]
        rfl
    _ = make_index_unique A.var_names := List.map_snd_zip _ _ hlen

/-- C9: after the Data Loader step (`LoadData`), gene symbols are
unique — for every loaded 10X directory, no two gene columns of the
resulting matrix share an identical symbol, duplicates having been
disambiguated by the deterministic `var_names_make_unique` pass before
any analysis. -/
theorem loaded_gene_symbols_unique (gex_path : TenXDir) :
    (LoadData gex_path).var_names.Nodup := by
  unfold LoadData
  rw [var_names_make_unique_var_names]
  exact make_index_unique_nodup _
